import Mathlib

/-
Verification of the document segregation tool (segregate.py).

The document-container library (python-docx) is out of scope: a document is
modelled as the ordered list of its paragraph texts (each a list of
characters, with explicit line breaks already flattened to a newline
character, exactly what the tool's text extraction produces).  All the
segmentation logic of the tool — marker grammar, boundary scanner,
hierarchy grouper, range resolver, and the block-selection part of the
materializer — is embedded below, translated function by function from the
source.  Regular-expression matching in the source is modelled by explicit
character-list scans that implement the match semantics of each concrete
pattern (anchored match, greedy and lazy repetition, the DOTALL flag where
the source sets it); the model is applied to stripped text only, as in the
source, so the end-of-string anchor is modelled as end of list.
-/

/-- The whitespace class of the tool's patterns and of text stripping. -/
def pySpace (c : Char) : Bool :=
  c == ' ' || c == '\t' || c == '\n' || c == '\r' || c == '\x0b' || c == '\x0c'

/-- Strip leading and trailing whitespace, as applied to every block text. -/
def strip (cs : List Char) : List Char :=
  ((cs.dropWhile pySpace).reverse.dropWhile pySpace).reverse

/-- Characters admitted by the roman-numeral character class of the Unit pattern. -/
def romanChar (c : Char) : Bool :=
  c == 'I' || c == 'V' || c == 'X' || c == 'L' || c == 'C'

/-- Whole-text match of the Unit pattern: the literal word Unit, one or more
whitespace characters, one or more roman-numeral characters, a colon, one or
more whitespace characters, then at least one further character with no
newline among the trailing characters (the final piece of the pattern cannot
cross a line break because the pattern is compiled without DOTALL). -/
def unitIsMatch (txt : List Char) : Bool :=
  "Unit".data.isPrefixOf txt &&
    (let r1 := txt.drop 4
     !(r1.takeWhile pySpace).isEmpty &&
       (let r2 := r1.dropWhile pySpace
        let rom := r2.takeWhile romanChar
        !rom.isEmpty &&
          (match r2.drop rom.length with
           | ':' :: r4 =>
             (List.range (r4.length + 1)).any (fun k =>
               decide (1 ≤ k) && (r4.take k).all pySpace &&
                 !(r4.drop k).isEmpty &&
                 (r4.drop k).all (fun c => !(c == '\n')))
           | _ => false)))

/-- Prefix match re-run by the grouper on a Unit marker's text to extract the
roman numeral (the pattern has no end anchor there). -/
def extractRoman (txt : List Char) : Option (List Char) :=
  if "Unit".data.isPrefixOf txt then
    let r1 := txt.drop 4
    if (r1.takeWhile pySpace).isEmpty then none
    else
      let r2 := r1.dropWhile pySpace
      let rom := r2.takeWhile romanChar
      if rom.isEmpty then none
      else
        match r2.drop rom.length with
        | ':' :: _ => some rom
        | _ => none
  else none

/-- The fixed roman-numeral table; anything unmapped yields 0. -/
def romanToInt (rom : List Char) : Nat :=
  if rom = "I".data then 1
  else if rom = "II".data then 2
  else if rom = "III".data then 3
  else if rom = "IV".data then 4
  else if rom = "V".data then 5
  else if rom = "VI".data then 6
  else 0

/-- Lazy scan used by the Chapter pattern after its mandatory first character:
consume characters one at a time (the repetition is lazy, so the first
admissible break wins) until a newline with a nonempty remainder is found —
then the remainder is the optional trailing group — or the text ends. -/
def chapTail (acc : List Char) : List Char → List Char × Option (List Char)
  | [] => (acc.reverse, none)
  | c :: cs =>
    if c = '\n' ∧ cs ≠ [] then (acc.reverse, some cs)
    else chapTail (c :: acc) cs

/-- Match of the Chapter pattern (compiled with DOTALL): the literal word
Chapter, optional whitespace, one digit-or-colon character, then a lazy
nonempty run, optionally followed by a newline and a nonempty trailing group
reaching the end of the text.  Returns the first captured group and, when
present, the trailing group. -/
def chapterMatch (txt : List Char) : Option (List Char × Option (List Char)) :=
  if "Chapter".data.isPrefixOf txt then
    let r1 := txt.drop 7
    let ws := r1.takeWhile pySpace
    match r1.dropWhile pySpace with
    | c :: cs =>
      if c.isDigit || c == ':' then
        match cs with
        | [] => none
        | d :: ds =>
          let p := chapTail [d] ds
          some ("Chapter".data ++ ws ++ c :: p.1, p.2)
      else none
    | [] => none
  else none

/-- Match of the Section pattern: a letter A through G, a period, then one
whitespace character; returns the letter. -/
def sectionLetter (txt : List Char) : Option Char :=
  match txt with
  | c :: '.' :: w :: _ =>
    if ('A' ≤ c ∧ c ≤ 'G') ∧ pySpace w then some c else none
  | _ => none

/-- A detected structural marker, attributed to the block index where its
text appears. -/
inductive Marker where
  | unit (pos : Nat) (text : List Char)
  | chapter (pos : Nat) (text : List Char)
  | sect (pos : Nat) (letter : Char) (inl : Bool)
deriving DecidableEq, Repr

def Marker.pos : Marker → Nat
  | .unit p _ => p
  | .chapter p _ => p
  | .sect p _ _ => p

def isSecM : Marker → Bool
  | .sect _ _ _ => true
  | _ => false

def isUnitM : Marker → Bool
  | .unit _ _ => true
  | _ => false

/-- Scan of a single block: skip empty text, else try the Unit pattern, else
the Chapter pattern (whose trailing group, when it matches the Section
pattern, yields an additional inline Section marker at the same position),
else the bare Section pattern. -/
def scanBlock (i : Nat) (raw : List Char) : List Marker :=
  let txt := strip raw
  if txt.isEmpty then []
  else if unitIsMatch txt then [Marker.unit i txt]
  else
    match chapterMatch txt with
    | some g =>
      Marker.chapter i (strip g.1) ::
        (match g.2 with
         | some tail =>
           (match sectionLetter (strip tail) with
            | some l => [Marker.sect i l true]
            | none => [])
         | none => [])
    | none =>
      match sectionLetter txt with
      | some l => [Marker.sect i l false]
      | none => []

/-- The boundary scanner: every block in order, positions from the given base. -/
def scanFrom (i : Nat) : List (List Char) → List Marker
  | [] => []
  | b :: bs => scanBlock i b ++ scanFrom (i + 1) bs

/-- A resolved hierarchical entry (the source's dict; the section-letter field
is named sect because of the Lean keyword). -/
structure Entry where
  unit : List Char
  unit_num : Nat
  chapter : List Char
  chapter_num : Nat
  sect : Char
  start_para : Nat
  end_para : Int
  is_inline : Bool
deriving DecidableEq, Repr

/-- Running context of the hierarchy grouper. -/
structure PState where
  current_unit : Option (List Char)
  current_unit_num : Nat
  current_chapter : Option (List Char)
  current_chapter_num : Nat
  counter : Nat → Nat
  keys : List Nat

def initState : PState := ⟨none, 0, none, 0, fun _ => 0, []⟩

/-- End of a section's range: the position immediately before the next marker
in the timeline, or the final block when no marker follows. -/
def restEnd (total : Nat) : List Marker → Int
  | [] => (total : Int) - 1
  | m :: _ => (m.pos : Int) - 1

/-- The hierarchy grouper and range resolver: one pass over the marker
timeline, maintaining current unit and chapter context, emitting an entry per
Section marker seen with both contexts established. -/
def buildLoop (total : Nat) (st : PState) : List Marker → List Entry
  | [] => []
  | m :: rest =>
    match m with
    | .unit _ text =>
      (match extractRoman text with
       | some rom =>
         let n := romanToInt rom
         let st1 : PState := { st with current_unit := some text, current_unit_num := n }
         let st2 : PState :=
           if n ∈ st1.keys then st1
           else { st1 with counter := fun k => if k = n then 0 else st1.counter k,
                           keys := n :: st1.keys }
         buildLoop total st2 rest
       | none => buildLoop total st rest)
    | .chapter _ text =>
      let st1 : PState :=
        if st.current_unit_num > 0 then
          let c := st.counter st.current_unit_num + 1
          { st with counter := fun k => if k = st.current_unit_num then c else st.counter k,
                    current_chapter_num := c, current_chapter := some text }
        else { st with current_chapter := some text }
      buildLoop total st1 rest
    | .sect p letter inl =>
      match st.current_unit, st.current_chapter with
      | some u, some ch =>
        { unit := u, unit_num := st.current_unit_num, chapter := ch,
          chapter_num := st.current_chapter_num, sect := letter,
          start_para := p, end_para := restEnd total rest, is_inline := inl }
          :: buildLoop total st rest
      | _, _ => buildLoop total st rest

/-- The structure parser: scan all blocks, then group and resolve. -/
def parse_structure (blocks : List (List Char)) : List Entry :=
  buildLoop blocks.length initState (scanFrom 0 blocks)

/-- The block indices whose content an entry owns: from the block after the
section marker through the resolved end, within the document. -/
def contentIndices (total : Nat) (e : Entry) : List Nat :=
  (List.range total).filter (fun i => decide (e.start_para + 1 ≤ i ∧ (i : Int) ≤ e.end_para))

/-- The content blocks copied into an entry's output, in order, after the
synthesized heading blocks. -/
def outputContent (blocks : List (List Char)) (e : Entry) : List (List Char) :=
  (contentIndices blocks.length e).map (fun i => blocks.getD i [])

def SECTIONS_TO_SKIP : List Char := ['E']

def emittedEntriesWith (skip : List Char) (blocks : List (List Char)) : List Entry :=
  (parse_structure blocks).filter (fun e => decide (e.sect ∉ skip))

def emittedEntries (blocks : List (List Char)) : List Entry :=
  emittedEntriesWith SECTIONS_TO_SKIP blocks

def get_unit_roman (n : Nat) : String :=
  if n = 1 then "I" else if n = 2 then "II" else if n = 3 then "III"
  else if n = 4 then "IV" else if n = 5 then "V" else if n = 6 then "VI"
  else toString n

def entryFilename (e : Entry) : String :=
  "Unit " ++ get_unit_roman e.unit_num ++ " Ch " ++ toString e.chapter_num ++
    " Sec " ++ String.mk [e.sect] ++ ".docx"

/-- The output files the main loop produces when every save succeeds. -/
def mainOutputs (blocks : List (List Char)) : List String :=
  (emittedEntries blocks).map entryFilename

/-- The files actually persisted by the main loop when saving may fail: an
unhandled save failure stops the loop, files written earlier remain. -/
def savedFiles (saveOk : Entry → Bool) : List Entry → List String
  | [] => []
  | e :: rest => if saveOk e then entryFilename e :: savedFiles saveOk rest else []

def find_unit_para (blocks : List (List Char)) (t : List Char) : Option Nat :=
  blocks.findIdx? (fun b => strip b == t)

def splitFirstNewline : List Char → Option (List Char × List Char)
  | [] => none
  | c :: cs =>
    if c = '\n' then some ([], cs)
    else
      match splitFirstNewline cs with
      | some p => some (c :: p.1, p.2)
      | none => none

/-- The actual section title read back from the marker block: for an inline
entry, the text after the first line break; otherwise the whole stripped text. -/
def get_actual_section_title (blocks : List (List Char)) (e : Entry) : Option (List Char) :=
  let txt := strip (blocks.getD e.start_para [])
  if e.is_inline then
    match splitFirstNewline txt with
    | some p => some (strip p.2)
    | none => none
  else some txt

/-- The block indices searched backwards for the Chapter heading, highest
first: the descending range from one before the marker, of at most nine
indices, clamped at the start of the document. -/
def chapterSearchIdxs (s : Nat) : List Nat :=
  (List.range (min 9 s)).map (fun k => s - 1 - k)

def chapterPrefixAt (blocks : List (List Char)) (i : Nat) : Bool :=
  "Chapter".data.isPrefixOf (strip (blocks.getD i []))

def find_chapter_para (blocks : List (List Char)) (e : Entry) : Option Nat :=
  if e.is_inline then some e.start_para
  else (chapterSearchIdxs e.start_para).find? (fun i => chapterPrefixAt blocks i)

/-- The Unit heading block of an output document. -/
inductive UnitHeading where
  | cloned (idx : Nat)
  | fallback (text : List Char)
deriving DecidableEq, Repr

/-- The Chapter-plus-Section heading block of an output document: a deep copy
of the whole original block for an inline entry; otherwise the original
chapter block's paragraph properties with three synthesized runs; or the
fallback bold paragraph when no chapter block is found. -/
inductive ChapterHeading where
  | clonedInline (idx : Nat)
  | synth (idx : Nat) (chapterText : List Char) (secTitle : List Char)
  | fallback (text : List Char)
deriving DecidableEq, Repr

def secTitleOrDefault (blocks : List (List Char)) (e : Entry) : List Char :=
  match get_actual_section_title blocks e with
  | some t => if t = [] then [e.sect, '.'] else t
  | none => [e.sect, '.']

/-- Text of the fallback heading paragraph (the source formats a missing
title as the word None, faithfully modelled). -/
def fallbackHeadingText (blocks : List (List Char)) (e : Entry) : List Char :=
  e.chapter ++ '\n' ::
    (match get_actual_section_title blocks e with
     | some t => t
     | none => "None".data)

def chapterHeading (blocks : List (List Char)) (e : Entry) : ChapterHeading :=
  match find_chapter_para blocks e with
  | some ci =>
    if e.is_inline then ChapterHeading.clonedInline ci
    else ChapterHeading.synth ci e.chapter (secTitleOrDefault blocks e)
  | none => ChapterHeading.fallback (fallbackHeadingText blocks e)

def unitHeading (blocks : List (List Char)) (e : Entry) : UnitHeading :=
  match find_unit_para blocks e.unit with
  | some i => UnitHeading.cloned i
  | none => UnitHeading.fallback e.unit

/-- Ordering invariant of the scanner's timeline: positions never decrease,
and strictly increase after a Section marker (only a Chapter marker and its
inline Section marker can share a position, in that order). -/
def mstep (a b : Marker) : Prop :=
  a.pos ≤ b.pos ∧ (isSecM a = true → a.pos < b.pos)

/-- Modelled from the spec: the curated list of known section-title fragments
of strict mode (strict-mode validation is not part of the source under
verification; only the spec describes it). -/
def titleFragments : List (List Char) :=
  ["summary".data, "key terms".data, "exam strategy".data,
   "unit i".data, "unit ii".data, "unit iii".data,
   "unit iv".data, "unit v".data, "unit vi".data]

/-- Case-insensitive-friendly substring test: the needle occurs somewhere in
the haystack. -/
def containsSub (needle hay : List Char) : Bool :=
  (List.range (hay.length + 1)).any (fun k => needle.isPrefixOf (hay.drop k))

/-- Modelled from the spec: strict-mode validation of a Section match — the
text following the letter and period must contain at least one known
title fragment, case-insensitively. -/
def strictSectionOk (txt : List Char) : Bool :=
  titleFragments.any (fun f => containsSub f ((txt.drop 2).map Char.toLower))

/-- Modelled from the spec: the strict-mode scanner — identical to the loose
scanner except that every Section match, bare or inline, must additionally
pass the title-fragment validation. -/
def scanBlockStrict (i : Nat) (raw : List Char) : List Marker :=
  let txt := strip raw
  if txt.isEmpty then []
  else if unitIsMatch txt then [Marker.unit i txt]
  else
    match chapterMatch txt with
    | some g =>
      Marker.chapter i (strip g.1) ::
        (match g.2 with
         | some tail =>
           (match sectionLetter (strip tail) with
            | some l => if strictSectionOk (strip tail) then [Marker.sect i l true] else []
            | none => [])
         | none => [])
    | none =>
      match sectionLetter txt with
      | some l => if strictSectionOk txt then [Marker.sect i l false] else []
      | none => []

def scanFromStrict (i : Nat) : List (List Char) → List Marker
  | [] => []
  | b :: bs => scanBlockStrict i b ++ scanFromStrict (i + 1) bs

/-- Modelled from the spec: a Section marker of flat unit-chunk mode. -/
structure FlatMarker where
  pos : Nat
  letter : Char
deriving DecidableEq, Repr

/-- Modelled from the spec: flat unit-chunk grouping — a Section letter A
with a nonempty current chunk closes the chunk and starts the next one;
every marker is appended to the current chunk regardless of letter. -/
def flatChunksGo (idx : Nat) (cur : List FlatMarker) : List FlatMarker → List (Nat × List FlatMarker)
  | [] => if cur = [] then [] else [(idx, cur)]
  | m :: rest =>
    if m.letter = 'A' ∧ cur ≠ [] then (idx, cur) :: flatChunksGo (idx + 1) [m] rest
    else flatChunksGo idx (cur ++ [m]) rest

def flatChunks (ms : List FlatMarker) : List (Nat × List FlatMarker) :=
  flatChunksGo 1 [] ms

/-- Modelled from the spec: a flat marker's range ends immediately before the
next marker of the flat timeline, or at the final block. -/
def flatEnd (total : Nat) (ms : List FlatMarker) (m : FlatMarker) : Int :=
  match ms.find? (fun x => decide (m.pos < x.pos)) with
  | some x => (x.pos : Int) - 1
  | none => (total : Int) - 1

/-- Modelled from the spec: resolved flat mode output — chunk index, marker,
and its inclusive range starting at the marker's own position. -/
def flatResolve (total : Nat) (ms : List FlatMarker) : List (Nat × FlatMarker × Nat × Int) :=
  (flatChunks ms).flatMap (fun c => c.2.map (fun m => (c.1, m, m.pos, flatEnd total ms m)))

/-- Modelled from the spec: flat-mode emission respects the skip-set. -/
def flatOutputs (total : Nat) (ms : List FlatMarker) (skip : List Char) :
    List (Nat × FlatMarker × Nat × Int) :=
  (flatResolve total ms).filter (fun r => decide (r.2.1.letter ∉ skip))

/-- The scenario document of the hierarchical-mode specification example. -/
def c1Blocks : List (List Char) :=
  ["Unit I: Algebra".data, "Chapter 1: Basics".data, "A. Summary text".data,
   "content-1".data, "B. Key terms".data, "content-2".data]

def c1EntryA : Entry :=
  { unit := "Unit I: Algebra".data, unit_num := 1, chapter := "Chapter 1: Basics".data,
    chapter_num := 1, sect := 'A', start_para := 2, end_para := 3, is_inline := false }

def c1EntryB : Entry :=
  { unit := "Unit I: Algebra".data, unit_num := 1, chapter := "Chapter 1: Basics".data,
    chapter_num := 1, sect := 'B', start_para := 4, end_para := 5, is_inline := false }

/-- A document with a content block (index 5) directly under a Unit heading:
it belongs to no section's content range, is no marker, and has markers and
owned content both before and after it. -/
def c2Blocks : List (List Char) :=
  ["Unit I: Algebra".data, "Chapter 1: Basics".data, "A. Summary text".data,
   "content-1".data, "Unit II: Geometry".data, "gap-content".data,
   "Chapter 2: Shapes".data, "B. Key terms".data, "content-2".data]

def c2EntryA : Entry :=
  { unit := "Unit I: Algebra".data, unit_num := 1, chapter := "Chapter 1: Basics".data,
    chapter_num := 1, sect := 'A', start_para := 2, end_para := 3, is_inline := false }

/-- A document whose Section E marker bounds the preceding section's range. -/
def c3Blocks : List (List Char) :=
  ["Unit I: Algebra".data, "Chapter 1: Basics".data, "A. Summary text".data,
   "content-1".data, "E. Question Bank".data, "content-2".data]

def c3EntryA : Entry :=
  { unit := "Unit I: Algebra".data, unit_num := 1, chapter := "Chapter 1: Basics".data,
    chapter_num := 1, sect := 'A', start_para := 2, end_para := 3, is_inline := false }

/-- A document whose Unit marker carries an unmapped roman numeral. -/
def c6Blocks : List (List Char) :=
  ["Unit VII: Extras".data, "Chapter 1: Stuff".data, "A. Summary".data, "c1".data]

def c6Entry : Entry :=
  { unit := "Unit VII: Extras".data, unit_num := 0, chapter := "Chapter 1: Stuff".data,
    chapter_num := 0, sect := 'A', start_para := 2, end_para := 3, is_inline := false }

/-- A document whose single section marker is the final block: its content
range is empty although no marker follows it. -/
def c7Blocks : List (List Char) :=
  ["Unit I: Algebra".data, "Chapter 1: Basics".data, "A. Summary text".data]

def c7Entry : Entry :=
  { unit := "Unit I: Algebra".data, unit_num := 1, chapter := "Chapter 1: Basics".data,
    chapter_num := 1, sect := 'A', start_para := 2, end_para := 2, is_inline := false }

/-- The flat-mode scenario markers of the specification. -/
def c8Markers : List FlatMarker :=
  [⟨0, 'A'⟩, ⟨5, 'B'⟩, ⟨10, 'A'⟩, ⟨15, 'C'⟩]

/-- A save outcome that fails exactly on the Section A output. -/
def c9SaveOk : Entry → Bool := fun e => !(e.sect == 'A')

/-- A document whose Chapter heading lies exactly ten blocks before the
section marker (index 1 before the marker at index 11). -/
def c10Blocks : List (List Char) :=
  ["Unit I: Algebra".data, "Chapter 1: Basics".data, "x1".data, "x2".data,
   "x3".data, "x4".data, "x5".data, "x6".data, "x7".data, "x8".data,
   "x9".data, "A. Summary text".data, "content-1".data]

def c10Entry : Entry :=
  { unit := "Unit I: Algebra".data, unit_num := 1, chapter := "Chapter 1: Basics".data,
    chapter_num := 1, sect := 'A', start_para := 11, end_para := 12, is_inline := false }

/-- An inline entry (for the materializer part of the inline-marker claim). -/
def c5Entry : Entry :=
  { unit := "Unit I: Algebra".data, unit_num := 1, chapter := "Chapter 2: Sets".data,
    chapter_num := 2, sect := 'A', start_para := 2, end_para := 3, is_inline := true }


lemma pref_iff (l1 : List Char) : ∀ l2, l1.isPrefixOf l2 = true ↔ ∃ r, l2 = l1 ++ r := by
  induction l1 with
  | nil => intro l2; simp [List.isPrefixOf]
  | cons c cs ih =>
    intro l2
    cases l2 with
    | nil => simp [List.isPrefixOf]
    | cons d ds =>
      simp only [List.isPrefixOf, Bool.and_eq_true, beq_iff_eq, ih]
      constructor
      · rintro ⟨rfl, r, rfl⟩; exact ⟨r, rfl⟩
      · rintro ⟨r, h⟩
        cases h
        exact ⟨rfl, r, rfl⟩

lemma scanBlock_shape (i : Nat) (raw : List Char) :
    scanBlock i raw = [] ∨
    (∃ t, scanBlock i raw = [Marker.unit i t]) ∨
    (∃ t, scanBlock i raw = [Marker.chapter i t]) ∨
    (∃ t l, scanBlock i raw = [Marker.chapter i t, Marker.sect i l true]) ∨
    (∃ l, scanBlock i raw = [Marker.sect i l false]) := by
  unfold scanBlock
  dsimp only
  split
  · exact Or.inl rfl
  · split
    · exact Or.inr (Or.inl ⟨_, rfl⟩)
    · split
      · split
        · split
          · exact Or.inr (Or.inr (Or.inr (Or.inl ⟨_, _, rfl⟩)))
          · exact Or.inr (Or.inr (Or.inl ⟨_, rfl⟩))
        · exact Or.inr (Or.inr (Or.inl ⟨_, rfl⟩))
      · split
        · exact Or.inr (Or.inr (Or.inr (Or.inr ⟨_, rfl⟩)))
        · exact Or.inl rfl

lemma scanBlock_mem_pos {i : Nat} {raw : List Char} {m : Marker}
    (hm : m ∈ scanBlock i raw) : m.pos = i := by
  rcases scanBlock_shape i raw with h | ⟨t, h⟩ | ⟨t, h⟩ | ⟨t, l, h⟩ | ⟨l, h⟩ <;>
    rw [h] at hm <;> simp at hm <;> rcases hm with rfl | rfl <;> rfl

lemma scanBlock_pairwise (i : Nat) (raw : List Char) :
    List.Pairwise mstep (scanBlock i raw) := by
  rcases scanBlock_shape i raw with h | ⟨t, h⟩ | ⟨t, h⟩ | ⟨t, l, h⟩ | ⟨l, h⟩ <;>
    rw [h] <;> simp [mstep, isSecM, Marker.pos]

lemma scanFrom_pos : ∀ (bs : List (List Char)) (i : Nat) (m : Marker),
    m ∈ scanFrom i bs → i ≤ m.pos ∧ m.pos < i + bs.length := by
  intro bs
  induction bs with
  | nil => intro i m hm; simp [scanFrom] at hm
  | cons b bs ih =>
    intro i m hm
    rw [scanFrom] at hm
    rcases List.mem_append.mp hm with h | h
    · have hp := scanBlock_mem_pos h
      simp [List.length_cons]
      omega
    · have := ih (i + 1) m h
      simp [List.length_cons]
      omega

lemma scanFrom_pairwise : ∀ (bs : List (List Char)) (i : Nat),
    List.Pairwise mstep (scanFrom i bs) := by
  intro bs
  induction bs with
  | nil => intro i; simp [scanFrom]
  | cons b bs ih =>
    intro i
    rw [scanFrom]
    refine List.pairwise_append.mpr ⟨scanBlock_pairwise i b, ih (i + 1), ?_⟩
    intro a ha b' hb'
    have h1 := scanBlock_mem_pos ha
    have h2 := (scanFrom_pos bs (i + 1) b' hb').1
    exact ⟨by omega, fun _ => by omega⟩

lemma buildLoop_shape : ∀ (ms : List Marker) (total : Nat) (st : PState) (e : Entry),
    e ∈ buildLoop total st ms →
    ∃ pre l inl rest, ms = pre ++ Marker.sect e.start_para l inl :: rest ∧
      e.sect = l ∧ e.is_inline = inl ∧ e.end_para = restEnd total rest := by
  intro ms
  induction ms with
  | nil => intro total st e he; simp [buildLoop] at he
  | cons m rest ih =>
    intro total st e he
    rw [buildLoop.eq_def] at he
    cases m with
    | unit p text =>
      dsimp only at he
      split at he
      · obtain ⟨pre, l, inl, rest', h1, h2, h3, h4⟩ := ih _ _ _ he
        exact ⟨Marker.unit p text :: pre, l, inl, rest', by rw [h1]; rfl, h2, h3, h4⟩
      · obtain ⟨pre, l, inl, rest', h1, h2, h3, h4⟩ := ih _ _ _ he
        exact ⟨Marker.unit p text :: pre, l, inl, rest', by rw [h1]; rfl, h2, h3, h4⟩
    | chapter p text =>
      dsimp only at he
      obtain ⟨pre, l, inl, rest', h1, h2, h3, h4⟩ := ih _ _ _ he
      exact ⟨Marker.chapter p text :: pre, l, inl, rest', by rw [h1]; rfl, h2, h3, h4⟩
    | sect p letter inl =>
      dsimp only at he
      split at he
      · rcases List.mem_cons.mp he with rfl | he'
        · exact ⟨[], letter, inl, rest, rfl, rfl, rfl, rfl⟩
        · obtain ⟨pre, l, inl', rest', h1, h2, h3, h4⟩ := ih _ _ _ he'
          exact ⟨Marker.sect p letter inl :: pre, l, inl', rest', by rw [h1]; rfl, h2, h3, h4⟩
      · obtain ⟨pre, l, inl', rest', h1, h2, h3, h4⟩ := ih _ _ _ he
        exact ⟨Marker.sect p letter inl :: pre, l, inl', rest', by rw [h1]; rfl, h2, h3, h4⟩

lemma sect_decomp_unique : ∀ (pre1 : List Marker) {p : Nat} {l1 l2 : Char} {i1 i2 : Bool}
    {rest1 pre2 rest2 : List Marker},
    List.Pairwise mstep (pre1 ++ Marker.sect p l1 i1 :: rest1) →
    pre1 ++ Marker.sect p l1 i1 :: rest1 = pre2 ++ Marker.sect p l2 i2 :: rest2 →
    pre1 = pre2 ∧ l1 = l2 ∧ i1 = i2 ∧ rest1 = rest2 := by
  intro pre1
  induction pre1 with
  | nil =>
    intro p l1 l2 i1 i2 rest1 pre2 rest2 hpw heq
    cases pre2 with
    | nil =>
      simp only [List.nil_append] at heq
      injection heq with h1 h2
      injection h1 with _ hl hi
      exact ⟨rfl, hl, hi, h2⟩
    | cons x pre2' =>
      simp only [List.nil_append, List.cons_append] at heq
      injection heq with h1 h2
      have hmem : Marker.sect p l2 i2 ∈ rest1 := by rw [h2]; simp
      have hstep := (List.pairwise_cons.mp hpw).1 _ hmem
      exact absurd (hstep.2 rfl) (by simp [Marker.pos])
  | cons a pre1' ih =>
    intro p l1 l2 i1 i2 rest1 pre2 rest2 hpw heq
    cases pre2 with
    | nil =>
      simp only [List.cons_append, List.nil_append] at heq
      injection heq with h1 h2
      have hmem : Marker.sect p l1 i1 ∈ pre1' ++ Marker.sect p l1 i1 :: rest1 := by simp
      have hstep := (List.pairwise_cons.mp hpw).1 _ hmem
      rw [h1] at hstep
      exact absurd (hstep.2 rfl) (by simp [Marker.pos])
    | cons b pre2' =>
      simp only [List.cons_append] at heq
      injection heq with h1 h2
      have := ih (List.pairwise_cons.mp hpw).2 h2
      exact ⟨by rw [h1, this.1], this.2.1, this.2.2.1, this.2.2.2⟩

lemma buildLoop_pairwise_lt : ∀ (ms : List Marker) (total : Nat) (st : PState),
    List.Pairwise mstep ms →
    List.Pairwise (fun e1 e2 => e1.end_para < (e2.start_para : Int)) (buildLoop total st ms) := by
  intro ms
  induction ms with
  | nil => intro total st _; simp [buildLoop]
  | cons m rest ih =>
    intro total st hpw
    have htl : List.Pairwise mstep rest := (List.pairwise_cons.mp hpw).2
    rw [buildLoop.eq_def]
    cases m with
    | unit p text =>
      dsimp only
      split
      · exact ih total _ htl
      · exact ih total _ htl
    | chapter p text =>
      dsimp only
      exact ih total _ htl
    | sect p letter inl =>
      dsimp only
      split
      · refine List.pairwise_cons.mpr ⟨?_, ih total st htl⟩
        intro e2 he2
        obtain ⟨pre2, l2, inl2, rest2, h1, _, _, _⟩ := buildLoop_shape rest total st e2 he2
        have hmem : Marker.sect e2.start_para l2 inl2 ∈ rest := by rw [h1]; simp
        cases rest with
        | nil => simp at hmem
        | cons m2 tl =>
          have h2 : m2.pos ≤ e2.start_para := by
            rcases List.mem_cons.mp hmem with h | h
            · rw [← h]; rfl
            · exact ((List.pairwise_cons.mp htl).1 _ h).1
          show restEnd total (m2 :: tl) < (e2.start_para : Int)
          simp only [restEnd]
          omega
      · exact ih total st htl

lemma buildLoop_no_unit : ∀ (ms : List Marker) (total : Nat) (st : PState),
    st.current_unit = none → (∀ m ∈ ms, isUnitM m = false) →
    buildLoop total st ms = [] := by
  intro ms
  induction ms with
  | nil => intro total st _ _; rfl
  | cons m rest ih =>
    intro total st h1 h2
    rw [buildLoop.eq_def]
    cases m with
    | unit p text => exact absurd (h2 _ (List.mem_cons_self _ _)) (by simp [isUnitM])
    | chapter p text =>
      dsimp only
      split
      · exact ih total _ h1 (fun x hx => h2 x (List.mem_cons_of_mem _ hx))
      · exact ih total _ h1 (fun x hx => h2 x (List.mem_cons_of_mem _ hx))
    | sect p letter inl =>
      dsimp only
      rw [h1]
      exact ih total st h1 (fun x hx => h2 x (List.mem_cons_of_mem _ hx))

lemma mem_contentIndices {total : Nat} {e : Entry} {i : Nat} :
    i ∈ contentIndices total e ↔ i < total ∧ e.start_para + 1 ≤ i ∧ (i : Int) ≤ e.end_para := by
  simp [contentIndices, List.mem_filter, List.mem_range, and_assoc]

lemma contentIndices_nil_iff {total : Nat} {e : Entry} (h : e.end_para ≤ (total : Int) - 1) :
    contentIndices total e = [] ↔ e.end_para < (e.start_para : Int) + 1 := by
  constructor
  · intro hnil
    by_contra hlt
    push_neg at hlt
    have hmem : (e.start_para + 1 : Nat) ∈ contentIndices total e := by
      refine mem_contentIndices.mpr ⟨?_, le_refl _, ?_⟩ <;> push_cast <;> omega
    rw [hnil] at hmem
    simp at hmem
  · intro hlt
    refine List.eq_nil_iff_forall_not_mem.mpr (fun i hi => ?_)
    have := mem_contentIndices.mp hi
    omega

lemma mem_chapterSearchIdxs {s j : Nat} :
    j ∈ chapterSearchIdxs s ↔ j < s ∧ s ≤ j + 9 := by
  simp only [chapterSearchIdxs, List.mem_map, List.mem_range]
  constructor
  · rintro ⟨k, hk, rfl⟩; omega
  · intro h; exact ⟨s - 1 - j, by omega, by omega⟩

lemma savedFiles_stop : ∀ (pre : List Entry) (f : Entry → Bool) (e : Entry) (post : List Entry),
    (∀ x ∈ pre, f x = true) → f e = false →
    savedFiles f (pre ++ e :: post) = pre.map entryFilename := by
  intro pre
  induction pre with
  | nil => intro f e post _ h2; simp [savedFiles, h2]
  | cons a pre' ih =>
    intro f e post h1 h2
    have ha := h1 a (by simp)
    simp [savedFiles, ha, ih f e post (fun x hx => h1 x (by simp [hx])) h2]

lemma dropWhile_append_left {p : Char → Bool} :
    ∀ (l r : List Char), l.dropWhile p ≠ [] → (l ++ r).dropWhile p = l.dropWhile p ++ r := by
  intro l
  induction l with
  | nil => intro r h; exact absurd rfl h
  | cons c cs ih =>
    intro r h
    by_cases hc : p c = true
    · rw [List.cons_append, List.dropWhile_cons_of_pos hc, List.dropWhile_cons_of_pos hc]
      exact ih r (by rwa [List.dropWhile_cons_of_pos hc] at h)
    · rw [List.cons_append, List.dropWhile_cons_of_neg (by simpa using hc),
        List.dropWhile_cons_of_neg (by simpa using hc)]
      simp

lemma mem_of_dropWhile (p : Char → Bool) : ∀ (l : List Char) (x : Char),
    x ∈ l.dropWhile p → x ∈ l := by
  intro l
  induction l with
  | nil => simp [List.dropWhile]
  | cons c cs ih =>
    intro x hx
    by_cases hc : p c = true
    · rw [List.dropWhile_cons_of_pos hc] at hx
      exact List.mem_cons_of_mem _ (ih x hx)
    · rw [List.dropWhile_cons_of_neg (by simpa using hc)] at hx
      exact hx

lemma takeWhile_append_left {p : Char → Bool} :
    ∀ (l r : List Char), l.dropWhile p ≠ [] → (l ++ r).takeWhile p = l.takeWhile p := by
  intro l
  induction l with
  | nil => intro r h; exact absurd rfl h
  | cons c cs ih =>
    intro r h
    by_cases hc : p c = true
    · rw [List.cons_append, List.takeWhile_cons_of_pos hc, List.takeWhile_cons_of_pos hc]
      rw [ih r (by rwa [List.dropWhile_cons_of_pos hc] at h)]
    · rw [List.cons_append, List.takeWhile_cons_of_neg (by simpa using hc),
        List.takeWhile_cons_of_neg (by simpa using hc)]

lemma chapTail_break : ∀ (pre acc t2 : List Char),
    (∀ c ∈ pre, ¬ c = '\n') → t2 ≠ [] →
    chapTail acc (pre ++ '\n' :: t2) = (acc.reverse ++ pre, some t2) := by
  intro pre
  induction pre with
  | nil =>
    intro acc t2 _ h2
    rw [List.nil_append, chapTail, if_pos ⟨rfl, h2⟩, List.append_nil]
  | cons c pre' ih =>
    intro acc t2 h1 h2
    have hc : ¬ c = '\n' := h1 c (by simp)
    rw [List.cons_append, chapTail, if_neg (by simp [hc]),
      ih (c :: acc) t2 (fun x hx => h1 x (by simp [hx])) h2]
    simp

lemma chapterMatch_inline {t1 t2 : List Char} (hpre : "Chapter".data.isPrefixOf t1 = true)
    (hnl : ∀ c ∈ t1, ¬ c = '\n')
    (hbody : ∃ c cs, (t1.drop 7).dropWhile pySpace = c :: cs ∧
      (c.isDigit || c == ':') = true ∧ cs ≠ [])
    (ht2 : t2 ≠ []) :
    chapterMatch (t1 ++ '\n' :: t2) = some (t1, some t2) := by
  obtain ⟨r, rfl⟩ := (pref_iff _ _).mp hpre
  obtain ⟨c, cs, hdw, hcls, hcs⟩ := hbody
  have h7 : ∀ x : List Char, ("Chapter".data ++ x).drop 7 = x := by
    intro x
    rw [show (7 : Nat) = "Chapter".data.length from rfl, List.drop_left]
  rw [h7] at hdw
  have hrne : r.dropWhile pySpace ≠ [] := by rw [hdw]; simp
  unfold chapterMatch
  rw [if_pos ((pref_iff _ _).mpr ⟨r ++ '\n' :: t2, by simp⟩)]
  dsimp only
  rw [List.append_assoc, h7, dropWhile_append_left r ('\n' :: t2) hrne, hdw]
  dsimp only [List.cons_append]
  rw [if_pos hcls]
  cases cs with
  | nil => exact absurd rfl hcs
  | cons d ds =>
    have hds : ∀ x ∈ ds, ¬ x = '\n' := by
      intro x hx
      refine hnl x (List.mem_append_right _ (mem_of_dropWhile pySpace r x ?_))
      rw [hdw]
      simp [hx]
    have hr : r = r.takeWhile pySpace ++ c :: d :: ds := by
      rw [← hdw, List.takeWhile_append_dropWhile]
    rw [List.cons_append]
    dsimp only
    rw [chapTail_break ds [d] t2 hds ht2, takeWhile_append_left r ('\n' :: t2) hrne]
    simp only [List.reverse_singleton, List.singleton_append, List.nil_append]
    conv_rhs => rw [hr]

lemma parse_shape {blocks : List (List Char)} {e : Entry} (he : e ∈ parse_structure blocks) :
    ∃ pre l inl rest, scanFrom 0 blocks = pre ++ Marker.sect e.start_para l inl :: rest ∧
      e.sect = l ∧ e.is_inline = inl ∧ e.end_para = restEnd blocks.length rest :=
  buildLoop_shape _ _ _ _ he

lemma parse_entry_bounds {blocks : List (List Char)} {e : Entry} (he : e ∈ parse_structure blocks) :
    (e.start_para : Int) ≤ e.end_para ∧ e.end_para ≤ (blocks.length : Int) - 1 ∧
      e.start_para < blocks.length := by
  obtain ⟨pre, l, inl, rest, h1, _, _, h4⟩ := parse_shape he
  have hpw := scanFrom_pairwise blocks 0
  rw [h1] at hpw
  have hmem : Marker.sect e.start_para l inl ∈ scanFrom 0 blocks := by rw [h1]; simp
  have hsb := scanFrom_pos blocks 0 _ hmem
  simp only [Marker.pos, Nat.zero_add] at hsb
  cases rest with
  | nil =>
    rw [h4]
    simp only [restEnd]
    refine ⟨by omega, by omega, hsb.2⟩
  | cons m2 tl =>
    rw [h4]
    simp only [restEnd]
    have hstep : mstep (Marker.sect e.start_para l inl) m2 :=
      (List.pairwise_cons.mp (List.pairwise_append.mp hpw).2.1).1 m2 (by simp)
    have hlt : e.start_para < m2.pos := hstep.2 rfl
    have hm2 : m2 ∈ scanFrom 0 blocks := by rw [h1]; simp
    have hm2b := scanFrom_pos blocks 0 _ hm2
    refine ⟨by omega, by omega, hsb.2⟩

lemma sectionLetter_shape {txt : List Char} {l : Char} (h : sectionLetter txt = some l) :
    ∃ w rest, txt = l :: '.' :: w :: rest := by
  unfold sectionLetter at h
  split at h
  · split at h
    · injection h with h
      subst h
      exact ⟨_, _, rfl⟩
    · exact absurd h (by simp)
  · exact absurd h (by simp)

lemma unitIsMatch_dot (c w : Char) (rest : List Char) :
    unitIsMatch (c :: '.' :: w :: rest) = false := by
  have hn : ('n' == '.') = false := by decide
  simp [unitIsMatch, List.isPrefixOf, hn]

lemma chapterMatch_dot (c w : Char) (rest : List Char) :
    chapterMatch (c :: '.' :: w :: rest) = none := by
  have hh : ('h' == '.') = false := by decide
  simp [chapterMatch, List.isPrefixOf, hh]

/-- C1: on the scenario document, hierarchical parsing with the default
skip-set yields exactly the two entries (unit I, chapter 1, section A) with
content range three to three and (unit I, chapter 1, section B) with content
range five to five; materialization produces exactly the two outputs named
Unit I Ch 1 Sec A and Unit I Ch 1 Sec B whose content after the synthesized
headings is exactly the single matching content block, and no Sec E output
exists. -/
theorem c1_hierarchical_two_sections :
    parse_structure c1Blocks = [c1EntryA, c1EntryB] ∧
    contentIndices c1Blocks.length c1EntryA = [3] ∧
    contentIndices c1Blocks.length c1EntryB = [5] ∧
    outputContent c1Blocks c1EntryA = ["content-1".data] ∧
    outputContent c1Blocks c1EntryB = ["content-2".data] ∧
    mainOutputs c1Blocks = ["Unit I Ch 1 Sec A.docx", "Unit I Ch 1 Sec B.docx"] ∧
    (mainOutputs c1Blocks).contains "Unit I Ch 1 Sec E.docx" = false := by
  refine ⟨by decide, by decide, by decide, by decide, by decide, by decide, by decide⟩

/-- C2 (amended): content ranges of distinct entries are pairwise disjoint;
and every block of the territory of a section marker that produced an entry
(from the marker's position up to just before the next marker, or to the end
of the document) is either the marker block itself or lies in that entry's
content range.  Uncovered blocks can therefore lie only before the first
marker or in the territory of a marker that produced no entry — not only in
leading or trailing position, as the original union claim states. -/
theorem c2_disjoint_and_gap_coverage (blocks : List (List Char)) :
    List.Pairwise
      (fun e1 e2 => ∀ i, i ∈ contentIndices blocks.length e1 →
        i ∉ contentIndices blocks.length e2)
      (parse_structure blocks) ∧
    (∀ (pre rest : List Marker) (m : Marker),
      scanFrom 0 blocks = pre ++ m :: rest →
      isSecM m = true →
      ∀ e ∈ parse_structure blocks, e.start_para = m.pos →
      ∀ i, m.pos ≤ i → i < blocks.length →
      (∀ m2, rest.head? = some m2 → i < m2.pos) →
      i = e.start_para ∨ i ∈ contentIndices blocks.length e) := by
  constructor
  · refine List.Pairwise.imp ?_
      (buildLoop_pairwise_lt (scanFrom 0 blocks) blocks.length initState
        (scanFrom_pairwise blocks 0))
    intro e1 e2 hlt i hi1 hi2
    have h1 := mem_contentIndices.mp hi1
    have h2 := mem_contentIndices.mp hi2
    omega
  · intro pre rest m hms hsec e he hstart i hge hlt hnext
    cases m with
    | unit p t => simp [isSecM] at hsec
    | chapter p t => simp [isSecM] at hsec
    | sect p lm im =>
      have hp : e.start_para = p := hstart
      obtain ⟨pre2, l2, inl2, rest2, h1, _, _, h4⟩ := parse_shape he
      rw [hp] at h1
      have hpw := scanFrom_pairwise blocks 0
      rw [h1] at hpw
      obtain ⟨_, _, _, hrest⟩ := sect_decomp_unique pre2 hpw (h1.symm.trans hms)
      rw [hrest] at h4
      have hge' : p ≤ i := hge
      rcases Nat.eq_or_lt_of_le hge' with heq | hlt2
      · exact Or.inl (by omega)
      · refine Or.inr (mem_contentIndices.mpr ⟨hlt, by omega, ?_⟩)
        rw [h4]
        cases rest with
        | nil => simp only [restEnd]; omega
        | cons m2 tl =>
          have := hnext m2 rfl
          simp only [restEnd]
          omega

/-- C2 counterexample: in a document with a content block directly under a
Unit heading, that block (index five) belongs to no entry's content range and
is no marker block, yet markers exist both before and after it, so it is
neither leading nor trailing: the claimed union does not cover the document. -/
theorem c2_union_counterexample :
    5 < c2Blocks.length ∧
    (parse_structure c2Blocks).all
      (fun e => !(contentIndices c2Blocks.length e).contains 5) = true ∧
    (scanFrom 0 c2Blocks).all (fun m => !(m.pos == 5)) = true ∧
    (scanFrom 0 c2Blocks).any (fun m => decide (m.pos < 5)) = true ∧
    (scanFrom 0 c2Blocks).any (fun m => decide (5 < m.pos)) = true := by
  refine ⟨by decide, by decide, by decide, by decide, by decide⟩

/-- C2 witness: the coverage part applied to the scenario document at the
Section A marker and block index three. -/
theorem c2_disjoint_and_gap_coverage_w :
    3 = c2EntryA.start_para ∨ (3 : Nat) ∈ contentIndices c2Blocks.length c2EntryA := by
  refine (c2_disjoint_and_gap_coverage c2Blocks).2
    [Marker.unit 0 "Unit I: Algebra".data, Marker.chapter 1 "Chapter 1: Basics".data]
    [Marker.unit 4 "Unit II: Geometry".data, Marker.chapter 6 "Chapter 2: Shapes".data,
      Marker.sect 7 'B' false]
    (Marker.sect 2 'A' false) (by decide) (by decide) c2EntryA (by decide) (by decide)
    3 (by decide) (by decide) ?_
  intro m2 h
  cases h
  decide

/-- C3: for both grouping disciplines and any configured skip-set, no output
is produced for a section letter in the skip-set; yet a skipped Section
marker still counts as a timeline position — the entry whose marker
immediately precedes it in the timeline has its end set to the position just
before the skipped marker.  (The flat discipline is modelled from the spec;
the hierarchical discipline and the emission filter are from the source.) -/
theorem c3_skip_respected (skip : List Char) (blocks : List (List Char)) :
    (∀ e ∈ emittedEntriesWith skip blocks, e.sect ∉ skip) ∧
    (∀ (total : Nat) (ms : List FlatMarker) (r : Nat × FlatMarker × Nat × Int),
      r ∈ flatOutputs total ms skip → r.2.1.letter ∉ skip) ∧
    (∀ (pre rest : List Marker) (q p : Nat) (l0 l : Char) (i0 i1 : Bool),
      scanFrom 0 blocks = pre ++ Marker.sect q l0 i0 :: Marker.sect p l i1 :: rest →
      l ∈ skip →
      ∀ e ∈ parse_structure blocks, e.start_para = q → e.end_para = (p : Int) - 1) := by
  refine ⟨?_, ?_, ?_⟩
  · intro e he
    have := (List.mem_filter.mp he).2
    simpa using this
  · intro total ms r hr
    have := (List.mem_filter.mp hr).2
    simpa using this
  · intro pre rest q p l0 l i0 i1 hms _ e he hstart
    obtain ⟨pre2, l2, inl2, rest2, h1, _, _, h4⟩ := parse_shape he
    rw [hstart] at h1
    have hpw := scanFrom_pairwise blocks 0
    rw [h1] at hpw
    obtain ⟨_, _, _, hrest⟩ := sect_decomp_unique pre2 hpw (h1.symm.trans hms)
    rw [hrest] at h4
    rw [h4]
    rfl

/-- C3 witness: on a document with a Section E marker, the entry for
Section A ends exactly one block before the skipped E marker, and the
emission filter with the default skip-set never emits an E entry. -/
theorem c3_skip_respected_w :
    c3EntryA.end_para = (4 : Int) - 1 :=
  (c3_skip_respected SECTIONS_TO_SKIP c3Blocks).2.2
    [Marker.unit 0 "Unit I: Algebra".data, Marker.chapter 1 "Chapter 1: Basics".data]
    [] 2 4 'A' 'E' false false (by decide) (by decide) c3EntryA (by decide) (by decide)

/-- C4 (modelled from the spec): a block whose text matches the Section
pattern but whose text after the letter and period contains no known title
fragment is not classified as a Section marker by the strict-mode scanner —
it emits no marker at all for that block, so the block appears nowhere in
the strict marker timeline; in particular a document containing the block
"C. Think of a function that..." has no Section marker in its timeline. -/
theorem c4_strict_fragment_filter :
    (∀ (i : Nat) (raw : List Char) (l : Char),
      sectionLetter (strip raw) = some l →
      strictSectionOk (strip raw) = false →
      scanBlockStrict i raw = []) ∧
    scanFromStrict 0 ["Unit I: Algebra".data, "Chapter 1: Basics".data,
        "C. Think of a function that...".data] =
      [Marker.unit 0 "Unit I: Algebra".data,
        Marker.chapter 1 "Chapter 1: Basics".data] := by
  constructor
  · intro i raw l hsec hbad
    obtain ⟨w, rest, ht⟩ := sectionLetter_shape hsec
    unfold scanBlockStrict
    rw [ht] at hsec hbad ⊢
    dsimp only
    rw [unitIsMatch_dot, chapterMatch_dot, hsec, hbad]
    simp
  · decide

/-- C4 witness: the strict scanner emits nothing for the block
"C. Think of a function that...". -/
theorem c4_strict_fragment_filter_w :
    scanBlockStrict 2 "C. Think of a function that...".data = [] :=
  c4_strict_fragment_filter.1 2 "C. Think of a function that...".data 'C'
    (by decide) (by decide)

/-- C5: a paragraph whose stripped text is a Chapter marker line followed by
a line break and trailing text matching the Section pattern yields both a
Chapter marker and an inline Section marker at the same block position; and
the materializer of an inline entry deep-copies the whole original block as
its heading (no synthesized runs). -/
theorem c5_inline_marker :
    (∀ (i : Nat) (raw t1 t2 : List Char) (l : Char),
      strip raw = t1 ++ '\n' :: t2 →
      (∀ c ∈ t1, ¬ c = '\n') →
      "Chapter".data.isPrefixOf t1 = true →
      (∃ c cs, (t1.drop 7).dropWhile pySpace = c :: cs ∧
        (c.isDigit || c == ':') = true ∧ cs ≠ []) →
      sectionLetter (strip t2) = some l →
      scanBlock i raw = [Marker.chapter i (strip t1), Marker.sect i l true]) ∧
    (∀ (blocks : List (List Char)) (e : Entry), e.is_inline = true →
      chapterHeading blocks e = ChapterHeading.clonedInline e.start_para) := by
  constructor
  · intro i raw t1 t2 l hstrip hnl hpre hbody hsec
    have ht2 : t2 ≠ [] := by
      intro h
      rw [h] at hsec
      simp [strip, sectionLetter] at hsec
    have hcm := chapterMatch_inline hpre hnl hbody ht2
    obtain ⟨r, hr⟩ := (pref_iff _ _).mp hpre
    have hne : (t1 ++ '\n' :: t2).isEmpty = false := by
      rw [hr]
      rfl
    have hu : unitIsMatch (t1 ++ '\n' :: t2) = false := by
      have hcu : ('U' == 'C') = false := by decide
      rw [hr]
      simp [unitIsMatch, List.isPrefixOf, hcu]
    unfold scanBlock
    rw [hstrip]
    dsimp only
    rw [hne, hu, hcm]
    dsimp only
    rw [hsec]
    simp
  · intro blocks e h
    simp [chapterHeading, find_chapter_para, h]

/-- C5 witness: the scenario block Chapter 2: Sets followed by an inline
Section A line yields both markers at position five, and an inline entry's
chapter heading is the cloned original block. -/
theorem c5_inline_marker_w :
    scanBlock 5 "Chapter 2: Sets\nA. Summary & Concept Map".data =
      [Marker.chapter 5 (strip "Chapter 2: Sets".data), Marker.sect 5 'A' true] ∧
    chapterHeading c1Blocks c5Entry = ChapterHeading.clonedInline c5Entry.start_para := by
  constructor
  · exact c5_inline_marker.1 5 "Chapter 2: Sets\nA. Summary & Concept Map".data
      "Chapter 2: Sets".data "A. Summary & Concept Map".data 'A'
      (by decide) (by decide) (by decide)
      ⟨'2', ": Sets".data, by decide, by decide, by decide⟩ (by decide)
  · exact c5_inline_marker.2 c1Blocks c5Entry (by decide)

/-- C6 (amended): an unmapped roman numeral yields unit number zero, but
sections under such a unit are still emitted (with unit number zero and an
unincremented chapter counter) and still produce output files; only a
Section seen before any Unit marker at all is silently dropped — when the
timeline has no Unit marker, parsing yields no entry. -/
theorem c6_unmapped_unit :
    (∀ blocks : List (List Char),
      (∀ m ∈ scanFrom 0 blocks, isUnitM m = false) → parse_structure blocks = []) ∧
    (∀ e ∈ parse_structure c6Blocks, e.unit_num = 0 ∧ e.chapter_num = 0) := by
  constructor
  · intro blocks h
    exact buildLoop_no_unit _ _ _ rfl h
  · decide

/-- C6 counterexample: under the unmapped numeral Unit VII, the Section A
marker is not dropped — parsing emits an entry with unit number zero and the
main loop creates the output file Unit 0 Ch 0 Sec A. -/
theorem c6_dropped_counterexample :
    parse_structure c6Blocks = [c6Entry] ∧
    c6Entry.unit_num = 0 ∧
    mainOutputs c6Blocks = ["Unit 0 Ch 0 Sec A.docx"] := by
  refine ⟨by decide, by decide, by decide⟩

/-- C6 witness: a document whose timeline has no Unit marker parses to no
entries at all. -/
theorem c6_unmapped_unit_w :
    parse_structure ["A. Summary text".data, "content-1".data] = [] :=
  c6_unmapped_unit.1 ["A. Summary text".data, "content-1".data] (by decide)

/-- C7 (amended): for every entry the content-range start is at most one past
the resolved end; the content range is empty exactly when a marker occupies
the very next block position or the section marker is the final block of the
document (the original claim omits the final-block case); an empty-range
entry still materializes, with no content blocks after the headings. -/
theorem c7_empty_range (blocks : List (List Char)) (e : Entry)
    (he : e ∈ parse_structure blocks) :
    (e.start_para : Int) + 1 ≤ e.end_para + 1 ∧
    (contentIndices blocks.length e = [] ↔
      (∃ m ∈ scanFrom 0 blocks, m.pos = e.start_para + 1) ∨
        e.start_para + 1 = blocks.length) ∧
    (contentIndices blocks.length e = [] → outputContent blocks e = []) := by
  obtain ⟨hse, hetot, hstot⟩ := parse_entry_bounds he
  refine ⟨by omega, ?_, ?_⟩
  · rw [contentIndices_nil_iff (by omega)]
    obtain ⟨pre, l, inl, rest, h1, _, _, h4⟩ := parse_shape he
    have hpw := scanFrom_pairwise blocks 0
    rw [h1] at hpw
    obtain ⟨hpwpre, hpwrest, hcross⟩ := List.pairwise_append.mp hpw
    have hprele : ∀ a ∈ pre, a.pos ≤ e.start_para := fun a ha =>
      (hcross a ha (Marker.sect e.start_para l inl) (by simp)).1
    cases rest with
    | nil =>
      rw [h4]
      simp only [restEnd]
      constructor
      · intro hlt
        exact Or.inr (by omega)
      · rintro (⟨m, hm, hmp⟩ | h)
        · rw [h1] at hm
          rcases List.mem_append.mp hm with h | h
          · have := hprele m h
            omega
          · rcases List.mem_cons.mp h with rfl | h
            · have hx : e.start_para = e.start_para + 1 := hmp
              omega
            · simp at h
        · omega
    | cons m2 tl =>
      rw [h4]
      simp only [restEnd]
      have hpc := List.pairwise_cons.mp hpwrest
      have hstep := hpc.1 m2 (by simp)
      have hm2gt : e.start_para < m2.pos := hstep.2 rfl
      have hm2tot : m2.pos < blocks.length := by
        have : m2 ∈ scanFrom 0 blocks := by rw [h1]; simp
        have := scanFrom_pos blocks 0 _ this
        omega
      constructor
      · intro hlt
        refine Or.inl ⟨m2, by rw [h1]; simp, by omega⟩
      · rintro (⟨m, hm, hmp⟩ | h)
        · rw [h1] at hm
          rcases List.mem_append.mp hm with h | h
          · have := hprele m h
            omega
          · rcases List.mem_cons.mp h with rfl | h
            · have hx : e.start_para = e.start_para + 1 := hmp
              omega
            · rcases List.mem_cons.mp h with rfl | h
              · omega
              · have := ((List.pairwise_cons.mp hpc.2).1 m h).1
                omega
        · omega
  · intro h
    rw [outputContent, h]
    rfl

/-- C7 counterexample: a section marker that is the final block has an empty
content range although no marker occupies the next position — emptiness is
not equivalent to an immediately following marker. -/
theorem c7_empty_counterexample :
    parse_structure c7Blocks = [c7Entry] ∧
    contentIndices c7Blocks.length c7Entry = [] ∧
    (scanFrom 0 c7Blocks).all (fun m => !(m.pos == c7Entry.start_para + 1)) = true := by
  refine ⟨by decide, by decide, by decide⟩

/-- C7 witness: the invariant applied to the Section A entry of the scenario
document. -/
theorem c7_empty_range_w :
    (c1EntryA.start_para : Int) + 1 ≤ c1EntryA.end_para + 1 :=
  (c7_empty_range c1Blocks c1EntryA (by decide)).1

/-- C8 (modelled from the spec): in flat unit-chunk mode, a Section letter A
seen with a nonempty current chunk closes the chunk and starts a new one with
the next index, any other marker (or an A on an empty chunk) is appended to
the current chunk; on the scenario markers A, B, A, C at positions zero,
five, ten, fifteen in a twenty-block document this yields chunk one with
ranges zero to four and five to nine and chunk two with ranges ten to
fourteen and fifteen to nineteen. -/
theorem c8_flat_chunks :
    (∀ (idx : Nat) (cur : List FlatMarker) (m : FlatMarker) (rest : List FlatMarker),
      m.letter = 'A' → cur ≠ [] →
      flatChunksGo idx cur (m :: rest) = (idx, cur) :: flatChunksGo (idx + 1) [m] rest) ∧
    (∀ (idx : Nat) (cur : List FlatMarker) (m : FlatMarker) (rest : List FlatMarker),
      ¬ (m.letter = 'A' ∧ cur ≠ []) →
      flatChunksGo idx cur (m :: rest) = flatChunksGo idx (cur ++ [m]) rest) ∧
    flatChunks c8Markers = [(1, [⟨0, 'A'⟩, ⟨5, 'B'⟩]), (2, [⟨10, 'A'⟩, ⟨15, 'C'⟩])] ∧
    flatResolve 20 c8Markers =
      [(1, ⟨0, 'A'⟩, 0, 4), (1, ⟨5, 'B'⟩, 5, 9),
        (2, ⟨10, 'A'⟩, 10, 14), (2, ⟨15, 'C'⟩, 15, 19)] := by
  refine ⟨?_, ?_, by decide, by decide⟩
  · intro idx cur m rest h1 h2
    rw [flatChunksGo, if_pos ⟨h1, h2⟩]
  · intro idx cur m rest h
    rw [flatChunksGo, if_neg h]

/-- C8 witness: the chunk-closing step applied at the second A of the
scenario. -/
theorem c8_flat_chunks_w :
    flatChunksGo 1 [⟨0, 'A'⟩, ⟨5, 'B'⟩] [⟨10, 'A'⟩, ⟨15, 'C'⟩] =
      (1, [⟨0, 'A'⟩, ⟨5, 'B'⟩]) :: flatChunksGo 2 [⟨10, 'A'⟩] [⟨15, 'C'⟩] :=
  c8_flat_chunks.1 1 [⟨0, 'A'⟩, ⟨5, 'B'⟩] ⟨10, 'A'⟩ [⟨15, 'C'⟩] rfl (by decide)

/-- C9 (amended): a save failure is not isolated to its Group — the main
loop has no per-Group error handling, so the failing Group and every
remaining Group are left unmaterialized, while the outputs persisted before
the failure remain on disk. -/
theorem c9_write_failure (f : Entry → Bool) (pre : List Entry) (e : Entry)
    (post : List Entry) (h1 : ∀ x ∈ pre, f x = true) (h2 : f e = false) :
    savedFiles f (pre ++ e :: post) = pre.map entryFilename :=
  savedFiles_stop pre f e post h1 h2

/-- C9 counterexample: with a save outcome failing only on the Section A
output of the scenario document, the Section B group — whose own save would
succeed — is never materialized: the run produces no files at all. -/
theorem c9_abort_counterexample :
    savedFiles c9SaveOk (emittedEntries c1Blocks) = [] ∧
    (emittedEntries c1Blocks).contains c1EntryB = true ∧
    c9SaveOk c1EntryB = true ∧
    (savedFiles c9SaveOk (emittedEntries c1Blocks)).contains
      "Unit I Ch 1 Sec B.docx" = false := by
  refine ⟨by decide, by decide, by decide, by decide⟩

/-- C9 witness: the abort behaviour applied to the scenario entries with a
failure on the first group. -/
theorem c9_write_failure_w :
    savedFiles c9SaveOk ([] ++ c1EntryA :: [c1EntryB]) = List.map entryFilename [] :=
  c9_write_failure c9SaveOk [] c1EntryA [c1EntryB] (by simp) (by decide)

/-- C10 (amended): for a non-inline entry only the nine blocks immediately
preceding the section marker are searched backwards for a block starting with
the word Chapter — not ten as claimed; when none of those nine blocks
qualifies, heading synthesis falls back to the single synthesized bold
paragraph of chapter text and section title, even when a Chapter block exists
earlier in the document. -/
theorem c10_chapter_window (blocks : List (List Char)) (e : Entry)
    (hni : e.is_inline = false) :
    (∀ i, find_chapter_para blocks e = some i →
      i < e.start_para ∧ e.start_para ≤ i + 9 ∧ chapterPrefixAt blocks i = true) ∧
    ((∀ j ∈ List.range e.start_para, e.start_para ≤ j + 9 →
        chapterPrefixAt blocks j = false) →
      find_chapter_para blocks e = none ∧
      chapterHeading blocks e = ChapterHeading.fallback (fallbackHeadingText blocks e)) := by
  constructor
  · intro i hf
    rw [find_chapter_para, if_neg (by simp [hni])] at hf
    have hm := List.mem_of_find?_eq_some hf
    have hp := List.find?_some hf
    have hw := mem_chapterSearchIdxs.mp hm
    exact ⟨hw.1, hw.2, hp⟩
  · intro hall
    have hnone : (chapterSearchIdxs e.start_para).find? (fun i => chapterPrefixAt blocks i) = none := by
      rw [List.find?_eq_none]
      intro j hj
      have hw := mem_chapterSearchIdxs.mp hj
      simp [hall j (List.mem_range.mpr hw.1) hw.2]
    have hfc : find_chapter_para blocks e = none := by
      rw [find_chapter_para, if_neg (by simp [hni])]
      exact hnone
    exact ⟨hfc, by simp [chapterHeading, hfc]⟩

/-- C10 counterexample: a Chapter block lying exactly ten blocks before the
section marker — inside the ten-block window the claim describes — is not
found: the search misses it and the materializer falls back to the
synthesized bold paragraph although the Chapter block exists. -/
theorem c10_window_counterexample :
    parse_structure c10Blocks = [c10Entry] ∧
    c10Entry.start_para = 11 ∧
    chapterPrefixAt c10Blocks 1 = true ∧
    find_chapter_para c10Blocks c10Entry = none ∧
    chapterHeading c10Blocks c10Entry =
      ChapterHeading.fallback (fallbackHeadingText c10Blocks c10Entry) := by
  refine ⟨by decide, by decide, by decide, by decide, by decide⟩

/-- C10 witness: the nine-block window applied to the counterexample
document. -/
theorem c10_chapter_window_w :
    find_chapter_para c10Blocks c10Entry = none ∧
    chapterHeading c10Blocks c10Entry =
      ChapterHeading.fallback (fallbackHeadingText c10Blocks c10Entry) :=
  (c10_chapter_window c10Blocks c10Entry (by decide)).2 (by decide)
